import Mathlib

/-!
Shallow embedding of the `escaping_html_editor` repository core:
the tokenizer (`src/parse/token.rs`) and the serializer
(`src/operation/html.rs`).

Rust `String`s are modelled as `List Char` on the tokenizer side (Rust
`.chars().position(..)` index arithmetic becomes list index arithmetic)
and as Lean `String` (a wrapper around `List Char`) on the data-model and
serializer side.  Rust slicing `s[a..b]`, which panics when the range is
out of bounds, is modelled by `slice?` returning `none` for the panic;
a function that can panic returns `Option`, with `none` meaning panic.
Fallible parsing (`Result<_, InnerHTMLParseError>`) is modelled with
`Except`.
-/

namespace HtmlEditor

/-- Doctype from the data model: `Html` or `Xml { version, encoding }`. -/
inductive Doctype where
  | Html : Doctype
  | Xml : (version : String) → (encoding : String) → Doctype
deriving DecidableEq, Repr

/-- Node from the data model: Element (name, attrs, children), Text,
Comment, Doctype, RawHTML.  The element payload is carried inline so the
nested recursion stays simple. -/
inductive Node where
  | element : (name : String) → (attrs : List (String × String)) → (children : List Node) → Node
  | text : String → Node
  | comment : String → Node
  | doctype : Doctype → Node
  | rawHTML : String → Node

/-- Element from the data model: `name`, `attrs`, `children`. -/
structure Element where
  name : String
  attrs : List (String × String)
  children : List Node

/-- `Element::into_node`: wrap the element as a `Node`. -/
def Element.intoNode (e : Element) : Node :=
  Node.element e.name e.attrs e.children

/-- `InnerHTMLParseError::InvalidTag { tag, reason }`. -/
inductive InnerHTMLParseError where
  | InvalidTag : (tag : String) → (reason : String) → InnerHTMLParseError
deriving DecidableEq, Repr

/-- Token from `src/parse/token.rs`. -/
inductive Token where
  | Start : String → List (String × String) → Token
  | End : String → Token
  | Closing : String → List (String × String) → Token
  | Doctype : HtmlEditor.Doctype → Token
  | Comment : String → Token
  | Text : String → Token
deriving DecidableEq, Repr

/-- The double-quote character, written by code point to keep literals plain. -/
def quoteChar : Char := Char.ofNat 34

/-- The apostrophe character, written by code point to keep literals plain. -/
def aposChar : Char := Char.ofNat 39

/-- Modelled from the spec: `VOID_TAGS` (in `src/data`, not part of the
excerpt) is a process-wide constant set of tag names that can never have
children or a closing tag; the spec names `img`, `input`, `br` as examples. -/
def VOID_TAGS : List String := ["img", "input", "br"]

/-- Modelled from the spec: the escaping applied by
`html_escape::encode_text` (external collaborator) to one character of a
text node — `&`, `<` and `>` become their HTML entities. -/
def escapeTextChar (c : Char) : String :=
  if c = '&' then "&amp;"
  else if c = '<' then "&lt;"
  else if c = '>' then "&gt;"
  else String.singleton c

/-- Modelled from the spec: `html_escape::encode_text`, HTML-entity
escaping of a text node before emission. -/
def encodeText (s : String) : String :=
  String.join (s.data.map escapeTextChar)

/-- Modelled from the spec: the escaping applied by
`html_escape::encode_double_quoted_attribute` (external collaborator) to
one character of an attribute value — double-quote and ampersand escaped. -/
def escapeAttrChar (c : Char) : String :=
  if c = '&' then "&amp;"
  else if c = quoteChar then "&quot;"
  else String.singleton c

/-- Modelled from the spec: `html_escape::encode_double_quoted_attribute`. -/
def encodeDoubleQuotedAttribute (s : String) : String :=
  String.join (s.data.map escapeAttrChar)

/-- Split a character list at the first character satisfying `p`:
returns the prefix before it and the rest starting with it. -/
def takeUntil (p : Char → Bool) : List Char → List Char × List Char
  | [] => ([], [])
  | c :: rest =>
    if p c then ([], c :: rest)
    else
      let np := takeUntil p rest
      (c :: np.1, np.2)

/-- Modelled from the spec: one scanning step of the AttributeListParser
collaborator (`attrs::parse`, whose file is not in the excerpt): skip
spaces, read a name up to `=` or space, then an optional value which is
double-quoted, single-quoted, or bare up to the next space; a missing
`=value` yields the empty-string value.  `fuel` bounds the recursion. -/
def attrsParseAux : Nat → List Char → List (String × String)
  | 0, _ => []
  | _ + 1, [] => []
  | fuel + 1, c :: rest =>
    if c = ' ' then attrsParseAux fuel rest
    else
      let np := takeUntil (fun x => x == '=' || x == ' ') (c :: rest)
      match np.2 with
      | '=' :: r2 =>
        match r2 with
        | q :: r3 =>
          if q = quoteChar then
            let vp := takeUntil (fun x => x == quoteChar) r3
            (np.1.asString, vp.1.asString) :: attrsParseAux fuel (vp.2.drop 1)
          else if q = aposChar then
            let vp := takeUntil (fun x => x == aposChar) r3
            (np.1.asString, vp.1.asString) :: attrsParseAux fuel (vp.2.drop 1)
          else
            let vp := takeUntil (fun x => x == ' ') r2
            (np.1.asString, vp.1.asString) :: attrsParseAux fuel vp.2
        | [] => [(np.1.asString, "")]
      | _ => (np.1.asString, "") :: attrsParseAux fuel np.2

/-- Modelled from the spec: the AttributeListParser collaborator
(`attrs::parse`): raw attribute substring to ordered (name, value) pairs. -/
def attrsParse (l : List Char) : List (String × String) :=
  attrsParseAux (l.length + 1) l

/-- Rust `char::is_ascii_whitespace`: space, tab, newline, form feed,
carriage return. -/
def isAsciiWhitespace (c : Char) : Bool :=
  c == ' ' || c == '\t' || c == '\n' || c == Char.ofNat 12 || c == '\r'

/-- Rust `str::trim` restricted to ASCII whitespace (the inputs the
claims exercise contain no exotic Unicode whitespace). -/
def rustTrim (l : List Char) : List Char :=
  ((l.dropWhile isAsciiWhitespace).reverse.dropWhile isAsciiWhitespace).reverse

/-- Rust slice `l[a..b]`: `none` models the panic when the range is
invalid. -/
def slice? (l : List Char) (a b : Nat) : Option (List Char) :=
  if a ≤ b ∧ b ≤ l.length then some ((l.drop a).take (b - a)) else none

/-- Rust `str::starts_with` on character lists (a prefix check). -/
def startsWithL : List Char → List Char → Bool
  | _, [] => true
  | [], _ :: _ => false
  | c :: cs, p :: ps => c == p && startsWithL cs ps

/-- Rust `str::ends_with` on character lists (a suffix check, computed as
a prefix check on the reversed lists). -/
def endsWithL (l s : List Char) : Bool := startsWithL l.reverse s.reverse

/-! ## Serializer (`src/operation/html.rs`)

In the source the element-rendering logic is the `Htmlifiable`
implementation for `Element`, and `Node::Element` delegates to it; here
the same logic is the `element` case of `Node.html` and `Element.html`
delegates, which is the same dispatch.  `nodesHtml` is the `Htmlifiable`
implementation for `Vec<Node>`, and `rawChildrenHtml` is the loop that
renders the children of a `style`/`script` element (Text children
emitted raw, other children through normal rendering). -/

/-- One attribute of the attribute list: bare name for an empty value,
`name="escaped-value"` otherwise (from the closure in `Element::html`). -/
def attrHtml (p : String × String) : String :=
  if p.2.isEmpty then p.1
  else p.1 ++ "=\"" ++ encodeDoubleQuotedAttribute p.2 ++ "\""

/-- The joined attribute list of `Element::html`: the rendered attributes
joined by single spaces, in their original order. -/
def attrsHtml (attrs : List (String × String)) : String :=
  String.intercalate " " (attrs.map attrHtml)

mutual

/-- `Htmlifiable::html` for `Node` (with the `Element` logic inlined in
the `element` case). -/
def Node.html : Node → String
  | .element name attrs children =>
    let childrenHtml :=
      if name = "style" ∨ name = "script" then rawChildrenHtml children
      else nodesHtml children
    if attrs.isEmpty then
      if VOID_TAGS.contains name then
        "<" ++ name ++ ">"
      else
        "<" ++ name ++ ">" ++ childrenHtml ++ "</" ++ name ++ ">"
    else
      if VOID_TAGS.contains name then
        "<" ++ name ++ " " ++ attrsHtml attrs ++ ">"
      else
        "<" ++ name ++ " " ++ attrsHtml attrs ++ ">" ++ childrenHtml ++ "</" ++ name ++ ">"
  | .text t => encodeText t
  | .comment c => "<!--" ++ c ++ "-->"
  | .doctype .Html => "<!DOCTYPE html>"
  | .doctype (.Xml version encoding) =>
    "<?xml version=\"" ++ version ++ "\" encoding=\"" ++ encoding ++ "\"?>"
  | .rawHTML h => h

/-- `Htmlifiable::html` for `Vec<Node>`: concatenation of the members'
renderings. -/
def nodesHtml : List Node → String
  | [] => ""
  | n :: rest => Node.html n ++ nodesHtml rest

/-- The `style`/`script` children loop: `Text` children pushed verbatim,
any other child rendered through `Node.html`. -/
def rawChildrenHtml : List Node → String
  | [] => ""
  | .text t :: rest => t ++ rawChildrenHtml rest
  | n :: rest => Node.html n ++ rawChildrenHtml rest

end

/-- The `children_html` computation at the top of `Element::html`. -/
def childrenHtmlOf (name : String) (children : List Node) : String :=
  if name = "style" ∨ name = "script" then rawChildrenHtml children
  else nodesHtml children

/-- `Htmlifiable::html` for `Element`. -/
def Element.html (e : Element) : String :=
  Node.html e.intoNode

/-! ## Tokenizer (`src/parse/token.rs`) -/

/-- `Token::from_comment`: strip the 4-character prefix and 3-character
suffix; `none` models the panic of `comment[4..comment.len() - 3]` on an
out-of-range slice. -/
def Token.fromComment (comment : List Char) : Option Token :=
  (slice? comment 4 (comment.length - 3)).map (fun inner => Token.Comment inner.asString)

/-- `Token::from` (named `fromTag` because `from` is a Lean keyword):
classify one complete tag substring.  The outer `Option` models panics
(`none`), the inner `Except` models the Rust `Result`. -/
def Token.fromTag (tag : List Char) : Option (Except InnerHTMLParseError Token) :=
  if endsWithL tag ['/', '>'] then
    match slice? tag 1 (tag.length - 2) with
    | none => none
    | some inner =>
      match inner.findIdx? (fun x => x != ' ') with
      | none =>
        some (.error (.InvalidTag tag.asString "Tag name cannot be all spaces after \"<\""))
      | some i =>
        let tagNameStart := i + 1
        match slice? tag tagNameStart tag.length with
        | none => none
        | some afterName =>
          let tagNameEnd :=
            match afterName.findIdx? (fun x => x == ' ') with
            | some e => e + tagNameStart
            | none => tag.length - 2
          match slice? tag tagNameStart tagNameEnd, slice? tag tagNameEnd (tag.length - 2) with
          | some tagName, some attrStr =>
            some (.ok (.Closing tagName.asString (attrsParse (rustTrim attrStr))))
          | _, _ => none
  else if startsWithL tag ['<', '/'] then
    match slice? tag 2 (tag.length - 1) with
    | none => none
    | some inner => some (.ok (.End (rustTrim inner).asString))
  else if startsWithL tag ['<', '!', '-', '-'] then
    match Token.fromComment tag with
    | none => none
    | some t => some (.ok t)
  else if startsWithL tag ['<', '!'] then
    some (.ok (.Doctype .Html))
  else if startsWithL tag ['<', '?'] then
    match slice? tag 2 (tag.length - 2) with
    | none => none
    | some inner =>
      let attr := attrsParse inner
      match attr.find? (fun p => p.1 == "version") with
      | none =>
        some (.error (.InvalidTag tag.asString "Cannot find version attribute in xml declaration"))
      | some v =>
        match attr.find? (fun p => p.1 == "encoding") with
        | none =>
          some (.error (.InvalidTag tag.asString "Cannot find encoding attribute in xml declaration"))
        | some e => some (.ok (.Doctype (.Xml v.2 e.2)))
  else if startsWithL tag ['<'] then
    match slice? tag 1 (tag.length - 1) with
    | none => none
    | some inner =>
      match inner.findIdx? (fun x => !isAsciiWhitespace x) with
      | none =>
        some (.error (.InvalidTag tag.asString "Tag name cannot be all spaces after \"<\""))
      | some i =>
        let tagNameStart := i + 1
        match slice? tag tagNameStart tag.length with
        | none => none
        | some afterName =>
          let tagNameEnd :=
            match afterName.findIdx? (fun x => isAsciiWhitespace x) with
            | some e => e + tagNameStart
            | none => tag.length - 1
          match slice? tag tagNameStart tagNameEnd, slice? tag tagNameEnd (tag.length - 1) with
          | some tagName, some attrStr =>
            some (.ok (.Start tagName.asString (attrsParse (rustTrim attrStr))))
          | _, _ => none
  else
    some (.error (.InvalidTag tag.asString "Invalid tag"))

/-- `Token::into_node`: convert the token to a `Node`; `Start`, `End` and
`Closing` become childless element nodes (an `End` with empty attrs). -/
def Token.intoNode : Token → Node
  | .Start name attrs => Element.intoNode ⟨name, attrs, []⟩
  | .End name => Element.intoNode ⟨name, [], []⟩
  | .Closing name attrs => Element.intoNode ⟨name, attrs, []⟩
  | .Doctype d => Node.doctype d
  | .Comment c => Node.comment c
  | .Text t => Node.text t

/-- `Token::node`: clone and convert (`self.clone().into_node()`). -/
def Token.node (t : Token) : Node := t.intoNode

/-- `Token::into_element`: `none` models the
`panic!("Cannot convert token to element")` on the non-element-shaped
tokens (`Doctype`, `Comment`, `Text`). -/
def Token.intoElement : Token → Option Element
  | .Start name attrs => some ⟨name, attrs, []⟩
  | .End name => some ⟨name, [], []⟩
  | .Closing name attrs => some ⟨name, attrs, []⟩
  | .Doctype _ => none
  | .Comment _ => none
  | .Text _ => none

/-! ## Helper lemmas -/

lemma ws_cases {c : Char} (h : isAsciiWhitespace c = true) :
    c = ' ' ∨ c = '\t' ∨ c = '\n' ∨ c = Char.ofNat 12 ∨ c = '\r' := by
  simpa [isAsciiWhitespace, or_assoc] using h

lemma slice?_append (pre mid post : List Char) :
    slice? (pre ++ (mid ++ post)) pre.length (pre.length + mid.length) = some mid := by
  unfold slice?
  rw [if_pos]
  · rw [Nat.add_sub_cancel_left, List.drop_left, List.take_left]
  · refine ⟨Nat.le_add_right _ _, ?_⟩
    rw [List.length_append, List.length_append]
    omega

/-! ## Claim theorems -/

/-- C1 (refuted; code bug): `Token::from` is not total over complete
`<...>` tag substrings — on the degenerate comment tag `<!-->` it takes
the comment branch and `from_comment` slices `comment[4..2]`, an
out-of-range slice, so it panics (modelled `none`) instead of returning
`Ok` or an `InvalidTag` error. -/
theorem from_tag_panics_on_degenerate_comment :
    Token.fromTag "<!-->".data = none := rfl

/-- C8: serializing `Node::Text(t)` emits `t` with each HTML-significant
character escaped by `escapeTextChar` — `&` to `&amp;`, `<` to `&lt;`,
`>` to `&gt;` — and every other character (quotes need no escaping in
text position) kept as itself. -/
theorem text_node_serialization_escapes (t : String) :
    Node.html (.text t) = encodeText t ∧
    encodeText t = String.join (t.data.map escapeTextChar) ∧
    escapeTextChar '&' = "&amp;" ∧
    escapeTextChar '<' = "&lt;" ∧
    escapeTextChar '>' = "&gt;" ∧
    Node.html (.text "a<b&c>d") = "a&lt;b&amp;c&gt;d" ∧
    (∀ c : Char, c ≠ '&' → c ≠ '<' → c ≠ '>' → escapeTextChar c = String.singleton c) := by
  refine ⟨rfl, rfl, rfl, rfl, rfl, rfl, ?_⟩
  intro c h1 h2 h3
  simp [escapeTextChar, h1, h2, h3]

/-- C8 witness: the theorem applied at `t = "x"` and the non-special
character `'x'`. -/
theorem text_node_serialization_escapes_witness :
    escapeTextChar 'x' = String.singleton 'x' :=
  (text_node_serialization_escapes "x").2.2.2.2.2.2 'x'
    (by decide) (by decide) (by decide)

/-- C9: `Token::into_element` succeeds, producing an element with empty
children, exactly on `Start`, `End` and `Closing` tokens, and panics
(modelled `none`) exactly on `Doctype`, `Comment` and `Text` tokens. -/
theorem into_element_contract :
    (∀ name attrs, Token.intoElement (.Start name attrs) = some ⟨name, attrs, []⟩) ∧
    (∀ name, Token.intoElement (.End name) = some ⟨name, [], []⟩) ∧
    (∀ name attrs, Token.intoElement (.Closing name attrs) = some ⟨name, attrs, []⟩) ∧
    (∀ d, Token.intoElement (.Doctype d) = none) ∧
    (∀ c, Token.intoElement (.Comment c) = none) ∧
    (∀ t, Token.intoElement (.Text t) = none) :=
  ⟨fun _ _ => rfl, fun _ => rfl, fun _ _ => rfl,
   fun _ => rfl, fun _ => rfl, fun _ => rfl⟩

/-- C10: converting an `End(name)` token with `into_node` (or `node`)
yields a full `Node::Element` with that name, empty attrs and empty
children — not a distinct end-marker node kind. -/
theorem end_token_converts_to_full_element_node (name : String) :
    Token.intoNode (.End name) = Node.element name [] [] ∧
    Token.node (.End name) = Node.element name [] [] :=
  ⟨rfl, rfl⟩

/-- C6: comment round-trip is the identity: serializing `Comment(c)`
yields exactly `<!--` ++ c ++ `-->` with no escaping, and tokenizing
`<!--` ++ c ++ `-->` yields `Comment(c)` with the interior kept verbatim;
in particular the ` a < b ` example tokenizes to `Comment(" a < b ")` and
serializes back to the identical original text. -/
theorem comment_round_trip (c : List Char) :
    Node.html (.comment c.asString) = "<!--" ++ c.asString ++ "-->" ∧
    Token.fromTag ('<' :: '!' :: '-' :: '-' :: (c ++ ['-', '-', '>'])) =
      some (.ok (.Comment c.asString)) ∧
    ('<' :: '!' :: '-' :: '-' :: (c ++ ['-', '-', '>'])).asString =
      "<!--" ++ c.asString ++ "-->" ∧
    Token.fromTag "<!-- a < b -->".data = some (.ok (.Comment " a < b ")) ∧
    Node.html (.comment " a < b ") = "<!-- a < b -->" := by
  refine ⟨rfl, ?_, ?_, rfl, rfl⟩
  · have hlen : ('<' :: '!' :: '-' :: '-' :: (c ++ ['-', '-', '>'])).length = c.length + 7 := by
      simp
    have hends :
        endsWithL ('<' :: '!' :: '-' :: '-' :: (c ++ ['-', '-', '>'])) ['/', '>'] = false := by
      simp [endsWithL, startsWithL]
    have hcom :
        Token.fromComment ('<' :: '!' :: '-' :: '-' :: (c ++ ['-', '-', '>'])) =
          some (.Comment c.asString) := by
      have h := slice?_append ['<', '!', '-', '-'] c ['-', '-', '>']
      simp only [List.cons_append, List.nil_append, List.length_cons, List.length_nil] at h
      unfold Token.fromComment
      rw [hlen]
      have hidx : c.length + 7 - 3 = 0 + 1 + 1 + 1 + 1 + c.length := by omega
      rw [hidx, h]
      rfl
    unfold Token.fromTag
    rw [hends]
    simp only [Bool.false_eq_true, if_false]
    rw [hcom]
    simp [startsWithL]
  · apply String.ext
    simp [List.asString, String.data_append]

/-- C3: a void-tag element serializes with no closing tag and without
rendering its (possibly erroneously non-empty) children: exactly
`<name>` when `attrs` is empty and `<name attr-list>` otherwise; in
particular the `img` example yields exactly `<img src="x.png">`. -/
theorem void_tag_serialization (name : String) (attrs : List (String × String))
    (children : List Node) (h : name ∈ VOID_TAGS) :
    Element.html ⟨name, attrs, children⟩ =
      (if attrs.isEmpty then "<" ++ name ++ ">"
       else "<" ++ name ++ " " ++ attrsHtml attrs ++ ">") ∧
    Element.html ⟨"img", [("src", "x.png")], []⟩ = "<img src=\"x.png\">" := by
  refine ⟨?_, rfl⟩
  cases attrs <;> simp [Element.html, Element.intoNode, Node.html, h]

/-- C3 witness: the theorem applied to an `img` element with an
erroneously populated child, which is still not rendered. -/
theorem void_tag_serialization_witness :
    "img" ∈ VOID_TAGS ∧
    Element.html ⟨"img", [("src", "x.png")], [Node.text "gone"]⟩ = "<img src=\"x.png\">" := by
  have h : "img" ∈ VOID_TAGS := by simp [VOID_TAGS]
  exact ⟨h, (void_tag_serialization "img" [("src", "x.png")] [Node.text "gone"] h).1.trans rfl⟩

/-- C4: for a `style` or `script` element, the children portion of the
output is `rawChildrenHtml`: `Text` children are emitted verbatim with no
entity escaping, while non-`Text` children go through the normal
recursive `Node.html`; for any other element name the children portion is
the normal `nodesHtml` rendering, which escapes `Text` children. -/
theorem style_script_raw_children (name : String) (attrs : List (String × String))
    (children : List Node) (h : name = "style" ∨ name = "script") :
    Element.html ⟨name, attrs, children⟩ =
      (if attrs.isEmpty then "<" ++ name ++ ">"
       else "<" ++ name ++ " " ++ attrsHtml attrs ++ ">")
        ++ rawChildrenHtml children ++ "</" ++ name ++ ">" ∧
    (∀ t rest, rawChildrenHtml (Node.text t :: rest) = t ++ rawChildrenHtml rest) ∧
    (∀ n rest, (∀ t, n ≠ Node.text t) →
      rawChildrenHtml (n :: rest) = Node.html n ++ rawChildrenHtml rest) ∧
    (∀ name', name' ≠ "style" → name' ≠ "script" →
      ∀ children', childrenHtmlOf name' children' = nodesHtml children') ∧
    (∀ name' attrs' children', name' ≠ "style" → name' ≠ "script" →
      VOID_TAGS.contains name' = false →
      Element.html ⟨name', attrs', children'⟩ =
        (if attrs'.isEmpty then "<" ++ name' ++ ">"
         else "<" ++ name' ++ " " ++ attrsHtml attrs' ++ ">")
          ++ nodesHtml children' ++ "</" ++ name' ++ ">") ∧
    (∀ t rest, nodesHtml (Node.text t :: rest) = encodeText t ++ nodesHtml rest) := by
  refine ⟨?_, fun t rest => rfl, ?_, ?_, ?_, fun t rest => rfl⟩
  · rcases h with rfl | rfl <;> cases attrs <;>
      simp [Element.html, Element.intoNode, Node.html, VOID_TAGS]
  · intro n rest hn
    cases n with
    | text t => exact absurd rfl (hn t)
    | element name' attrs' children' => rfl
    | comment s => rfl
    | doctype d => rfl
    | rawHTML s => rfl
  · intro name' h1 h2 children'
    simp [childrenHtmlOf, h1, h2]
  · intro name' attrs' children' h1 h2 hv
    have hv' : name' ∉ VOID_TAGS := by simpa using hv
    cases attrs' <;> simp [Element.html, Element.intoNode, Node.html, h1, h2, hv']

/-- C4 witness: the theorem applied to the spec's script example — the
`<` inside the script body is not escaped. -/
theorem style_script_raw_children_witness :
    ("script" = "style" ∨ "script" = "script") ∧
    Element.html ⟨"script", [], [Node.text "if (a < b) \x7b\x7d"]⟩ =
      "<script>if (a < b) \x7b\x7d</script>" := by
  have H := style_script_raw_children "script" [] [Node.text "if (a < b) \x7b\x7d"] (Or.inr rfl)
  exact ⟨Or.inr rfl, H.1.trans rfl⟩

/-- C5: for a non-empty attrs list, each empty-valued attribute renders
as the bare name, each non-empty-valued one as `name="escaped-value"`
(double-quote and ampersand escaped), joined by single spaces in original
order; the element output is `<name attr-list>` (plus children and
closing tag when not void); in particular the script example yields
exactly `<script src="index.js" defer></script>`. -/
theorem attribute_list_serialization (name : String) (attrs : List (String × String))
    (children : List Node) (h : attrs ≠ []) :
    (∀ k, attrHtml (k, "") = k) ∧
    (∀ k v, v ≠ "" → attrHtml (k, v) = k ++ "=\"" ++ encodeDoubleQuotedAttribute v ++ "\"") ∧
    attrsHtml attrs = String.intercalate " " (attrs.map attrHtml) ∧
    Element.html ⟨name, attrs, children⟩ =
      (if VOID_TAGS.contains name then
        "<" ++ name ++ " " ++ attrsHtml attrs ++ ">"
       else
        "<" ++ name ++ " " ++ attrsHtml attrs ++ ">" ++ childrenHtmlOf name children
          ++ "</" ++ name ++ ">") ∧
    Element.html ⟨"script", [("src", "index.js"), ("defer", "")], []⟩ =
      "<script src=\"index.js\" defer></script>" := by
  refine ⟨fun k => rfl, ?_, rfl, ?_, rfl⟩
  · intro k v hv
    have : v.isEmpty = false := by
      cases hve : v.isEmpty
      · rfl
      · exact absurd ((String.isEmpty_iff v).mp hve) hv
    simp [attrHtml, this]
  · cases attrs with
    | nil => exact absurd rfl h
    | cons a as =>
      by_cases hv : name ∈ VOID_TAGS <;>
        simp [Element.html, Element.intoNode, Node.html, childrenHtmlOf, hv]

/-- C5 witness: the theorem applied to the boolean-attribute script
example. -/
theorem attribute_list_serialization_witness :
    ([("src", "index.js"), ("defer", "")] ≠ ([] : List (String × String))) ∧
    Element.html ⟨"script", [("src", "index.js"), ("defer", "")], []⟩ =
      "<script src=\"index.js\" defer></script>" := by
  refine ⟨by simp, ?_⟩
  exact (attribute_list_serialization "script" [("src", "index.js"), ("defer", "")] []
    (by simp)).2.2.2.2

lemma fromTag_all_space_self_closing (m : List Char) (h : ∀ c ∈ m, c = ' ') :
    Token.fromTag ('<' :: (m ++ ['/', '>'])) =
      some (.error (.InvalidTag ('<' :: (m ++ ['/', '>'])).asString
        "Tag name cannot be all spaces after \"<\"")) := by
  have hends : endsWithL ('<' :: (m ++ ['/', '>'])) ['/', '>'] = true := by
    simp [endsWithL, startsWithL]
  have hsl := slice?_append ['<'] m ['/', '>']
  simp only [List.cons_append, List.nil_append, List.length_cons, List.length_nil] at hsl
  have hidx : ('<' :: (m ++ ['/', '>'])).length - 2 = 0 + 1 + m.length := by
    simp
    omega
  have hfind : m.findIdx? (fun x => x != ' ') = none :=
    List.findIdx?_eq_none_iff.mpr (fun x hx => by simp [h x hx])
  unfold Token.fromTag
  rw [hends]
  simp only [if_true]
  rw [hidx, hsl]
  simp [hfind]

lemma ws_ne {c : Char} (h : isAsciiWhitespace c = true) :
    c ≠ '/' ∧ c ≠ '!' ∧ c ≠ '?' := by
  rcases ws_cases h with rfl | rfl | rfl | rfl | rfl <;>
    exact ⟨by decide, by decide, by decide⟩

lemma slice?_cons (x : Char) (mid post : List Char) :
    slice? (x :: (mid ++ post)) 1 (1 + mid.length) = some mid := by
  unfold slice?
  rw [if_pos]
  · have h1 : 1 + mid.length - 1 = mid.length := by omega
    rw [h1]
    simp [List.take_left]
  · refine ⟨by omega, ?_⟩
    simp only [List.length_cons, List.length_append]
    omega

lemma fromTag_all_whitespace_start (m : List Char)
    (h : ∀ c ∈ m, isAsciiWhitespace c = true) :
    Token.fromTag ('<' :: (m ++ ['>'])) =
      some (.error (.InvalidTag ('<' :: (m ++ ['>'])).asString
        "Tag name cannot be all spaces after \"<\"")) := by
  cases m with
  | nil => rfl
  | cons b m' =>
    have hb := h b (by simp)
    obtain ⟨hb1, hb2, hb3⟩ := ws_ne hb
    have hfind : (b :: m').findIdx? (fun x => !isAsciiWhitespace x) = none :=
      List.findIdx?_eq_none_iff.mpr (fun x hx => by simp [h x hx])
    have hends : endsWithL ('<' :: ((b :: m') ++ ['>'])) ['/', '>'] = false := by
      cases hmr : m'.reverse with
      | nil =>
        have hm : m' = [] := by
          have := congrArg List.reverse hmr
          simpa using this
        subst hm
        simp [endsWithL, startsWithL, hb1]
      | cons a t =>
        have ham : a ∈ m' := by
          rw [← List.mem_reverse, hmr]
          simp
        obtain ⟨ha1, _, _⟩ := ws_ne (h a (by simp [ham]))
        simp [endsWithL, startsWithL, hmr, ha1]
    have hsl := slice?_cons '<' (b :: m') ['>']
    have hidx : ('<' :: ((b :: m') ++ ['>'])).length - 1 = 1 + (b :: m').length := by
      simp only [List.length_cons, List.length_append, List.length_nil]
      omega
    unfold Token.fromTag
    rw [hends]
    simp only [Bool.false_eq_true, if_false]
    rw [hidx, hsl]
    simp [startsWithL, hfind, hb1, hb2, hb3]

/-- C2 counterexample: in the self-closing shape the tokenizer checks the
tag-name region against the literal space character only, so a tab-only
name region is accepted as a `Closing` token with the all-whitespace name
`"\t"` instead of failing. -/
theorem tab_self_closing_accepted :
    Token.fromTag ['<', '\t', '/', '>'] = some (.ok (.Closing "\t" [])) := rfl

/-- C2 (amended): an all-whitespace tag-name region makes `Token::from`
fail with the dedicated "all spaces" `InvalidTag` error — for the plain
start-tag shape with any ASCII whitespace characters (spaces, tabs, ...),
but for the self-closing `/>` shape only when the region is all literal
spaces (the check there is `x != ' '`). -/
theorem all_whitespace_tag_name_errors :
    (∀ m : List Char, (∀ c ∈ m, isAsciiWhitespace c = true) →
      Token.fromTag ('<' :: (m ++ ['>'])) =
        some (.error (.InvalidTag ('<' :: (m ++ ['>'])).asString
          "Tag name cannot be all spaces after \"<\""))) ∧
    (∀ m : List Char, (∀ c ∈ m, c = ' ') →
      Token.fromTag ('<' :: (m ++ ['/', '>'])) =
        some (.error (.InvalidTag ('<' :: (m ++ ['/', '>'])).asString
          "Tag name cannot be all spaces after \"<\""))) :=
  ⟨fromTag_all_whitespace_start, fromTag_all_space_self_closing⟩

/-- C2 witness: the amended theorem applied at `<` ++ `" \t"` ++ `>`
(space and tab, start shape) and at `<  />` (spaces, self-closing
shape). -/
theorem all_whitespace_tag_name_errors_witness :
    (∀ c ∈ [' ', '\t'], isAsciiWhitespace c = true) ∧
    Token.fromTag "< \t>".data =
      some (.error (.InvalidTag "< \t>" "Tag name cannot be all spaces after \"<\"")) ∧
    (∀ c ∈ [' ', ' '], c = ' ') ∧
    Token.fromTag "<  />".data =
      some (.error (.InvalidTag "<  />" "Tag name cannot be all spaces after \"<\"")) := by
  refine ⟨by decide, ?_, by decide, ?_⟩
  · exact all_whitespace_tag_name_errors.1 [' ', '\t'] (by decide)
  · exact all_whitespace_tag_name_errors.2 [' ', ' '] (by decide)

lemma fromTag_xml_decl (ds : List Char)
    (h2 : endsWithL ('<' :: '?' :: ds) ['/', '>'] = false)
    (hds : 2 ≤ ds.length) :
    Token.fromTag ('<' :: '?' :: ds) =
      (match (attrsParse (ds.take (ds.length - 2))).find? (fun p => p.1 == "version") with
       | none => some (.error (.InvalidTag ('<' :: '?' :: ds).asString
           "Cannot find version attribute in xml declaration"))
       | some v =>
         match (attrsParse (ds.take (ds.length - 2))).find? (fun p => p.1 == "encoding") with
         | none => some (.error (.InvalidTag ('<' :: '?' :: ds).asString
             "Cannot find encoding attribute in xml declaration"))
         | some e => some (.ok (.Doctype (.Xml v.2 e.2)))) := by
  have hmin : min (ds.length - 2) ds.length = ds.length - 2 :=
    Nat.min_eq_left (Nat.sub_le _ _)
  have hsl := slice?_append ['<', '?'] (ds.take (ds.length - 2)) (ds.drop (ds.length - 2))
  simp only [List.cons_append, List.nil_append, List.take_append_drop, List.length_cons,
    List.length_nil, List.length_take, hmin, Nat.zero_add, one_add_one_eq_two] at hsl
  have hidx : ('<' :: '?' :: ds).length - 2 = 2 + (ds.length - 2) := by
    simp only [List.length_cons]
    omega
  unfold Token.fromTag
  rw [h2]
  simp only [Bool.false_eq_true, if_false]
  rw [hidx, hsl]
  simp [startsWithL]

/-- C7 counterexample: `<?>` starts with `<?` and matches no
higher-precedence shape, yet `Token::from` slices `tag[2..tag.len()-2]`
= `tag[2..1]`, which is out of range: it panics (modelled `none`) instead
of returning `Doctype::Xml` or an `InvalidTag` error. -/
theorem xml_decl_short_tag_panics :
    Token.fromTag "<?>".data = none := rfl

/-- C7 (amended): for every tag substring of length at least 4 that
starts with `<?` and matches no higher-precedence shape (the length-3 tag
`<?>` instead panics on an out-of-range slice), `Token::from` parses the
interior as an attribute list; a missing `version` key fails with an
`InvalidTag` error naming the version attribute, otherwise a missing
`encoding` key fails naming the encoding attribute, otherwise the token
is `Doctype::Xml` carrying both values; in particular
`<?xml version="1.0"?>` fails citing the missing encoding attribute. -/
theorem xml_declaration_requires_version_and_encoding (tag : List Char)
    (attr : List (String × String))
    (h1 : startsWithL tag ['<', '?'] = true)
    (h2 : endsWithL tag ['/', '>'] = false)
    (h3 : 4 ≤ tag.length)
    (hattr : attr = attrsParse ((tag.drop 2).take (tag.length - 4))) :
    (attr.find? (fun p => p.1 == "version") = none →
      Token.fromTag tag = some (.error (.InvalidTag tag.asString
        "Cannot find version attribute in xml declaration"))) ∧
    (∀ v, attr.find? (fun p => p.1 == "version") = some v →
      attr.find? (fun p => p.1 == "encoding") = none →
      Token.fromTag tag = some (.error (.InvalidTag tag.asString
        "Cannot find encoding attribute in xml declaration"))) ∧
    (∀ v e, attr.find? (fun p => p.1 == "version") = some v →
      attr.find? (fun p => p.1 == "encoding") = some e →
      Token.fromTag tag = some (.ok (.Doctype (.Xml v.2 e.2)))) ∧
    Token.fromTag "<?xml version=\"1.0\"?>".data =
      some (.error (.InvalidTag "<?xml version=\"1.0\"?>"
        "Cannot find encoding attribute in xml declaration")) := by
  cases tag with
  | nil => simp [startsWithL] at h1
  | cons c cs =>
    cases cs with
    | nil => simp [startsWithL] at h1
    | cons d ds =>
      simp only [startsWithL, Bool.and_eq_true, beq_iff_eq] at h1
      obtain ⟨rfl, rfl, -⟩ := h1
      have hds : 2 ≤ ds.length := by
        simp only [List.length_cons] at h3
        omega
      have hint : ((('<' :: '?' :: ds).drop 2).take (('<' :: '?' :: ds).length - 4))
          = ds.take (ds.length - 2) := by
        have he4 : ('<' :: '?' :: ds).length - 4 = ds.length - 2 := by
          simp only [List.length_cons]
          omega
        rw [he4]
        simp
      rw [hint] at hattr
      have H := fromTag_xml_decl ds h2 hds
      rw [← hattr] at H
      refine ⟨?_, ?_, ?_, rfl⟩
      · intro hv
        rw [H, hv]
      · intro v hv he
        rw [H, hv, he]
      · intro v e hv he
        rw [H, hv, he]

/-- C7 witness: the amended theorem applied at `<?xml version="1.0"?>`,
whose attribute list has a `version` pair but no `encoding` pair. -/
theorem xml_declaration_requires_version_and_encoding_witness :
    (startsWithL "<?xml version=\"1.0\"?>".data ['<', '?'] = true) ∧
    (endsWithL "<?xml version=\"1.0\"?>".data ['/', '>'] = false) ∧
    (4 ≤ "<?xml version=\"1.0\"?>".data.length) ∧
    Token.fromTag "<?xml version=\"1.0\"?>".data =
      some (.error (.InvalidTag "<?xml version=\"1.0\"?>"
        "Cannot find encoding attribute in xml declaration")) := by
  refine ⟨by decide, by decide, by decide, ?_⟩
  exact (xml_declaration_requires_version_and_encoding "<?xml version=\"1.0\"?>".data
    (attrsParse (("<?xml version=\"1.0\"?>".data.drop 2).take
      ("<?xml version=\"1.0\"?>".data.length - 4)))
    (by decide) (by decide) (by decide) rfl).2.1
    ("version", "1.0") (by decide) (by decide)

end HtmlEditor
